import Mathlib

/-
Verification of the battery dashboard data model.

The repository holds two near-duplicate Streamlit dashboards:
  * streamlit_battery_app.py  (variant A below): sidebar add-cell form with a
    registry cap of 8, per-cell charge / discharge / stop buttons;
  * battery_streamlit_app.py  (variant B below): multi-page app with a
    replace-all cell form, a task list, and a refresh action.

Python floats are modelled as exact rationals, Python ints as integers,
Python insertion-ordered dicts as association lists with Python assignment
semantics (update in place when the key exists, append otherwise), and the
random module as an explicit stream of samples passed to each operation.
Cell keys of the form cell_<n>_<type> and task keys of the form task_<n>
are modelled structurally by their components, since every key the apps
build has that shape.
-/

namespace Battery

/- ## Ordered-dictionary helpers (Python dict semantics on assoc lists) -/

/-- Python `d[k] = v`: update in place when `k` is present, append otherwise. -/
def dictInsert [DecidableEq κ] (k : κ) (v : α) : List (κ × α) → List (κ × α)
  | [] => [(k, v)]
  | (k', v') :: rest =>
      if k' = k then (k, v) :: rest else (k', v') :: dictInsert k v rest

/-- Python `d.get(k)` / `d[k]` read. -/
def dictGet [DecidableEq κ] (k : κ) : List (κ × α) → Option α
  | [] => none
  | (k', v') :: rest => if k' = k then some v' else dictGet k rest

/-- Python `d[k] = f(d[k])` when the key exists; no effect on a missing key. -/
def dictModify [DecidableEq κ] (k : κ) (f : α → α) : List (κ × α) → List (κ × α)
  | [] => []
  | (k', v') :: rest =>
      if k' = k then (k', f v') :: rest else (k', v') :: dictModify k f rest

/-- Python `del d[k]`. -/
def dictDelete [DecidableEq κ] (k : κ) : List (κ × α) → List (κ × α)
  | [] => []
  | (k', v') :: rest =>
      if k' = k then rest else (k', v') :: dictDelete k rest

/- ## Rounding (Python `round(x, ndigits)`, ties to even, on exact rationals) -/

/-- Round a rational to the nearest integer, ties to the even integer,
as Python `round` does. -/
def roundHalfEven (q : ℚ) : ℤ :=
  let f : ℤ := ⌊q⌋
  let frac : ℚ := q - f
  if frac < 1/2 then f
  else if 1/2 < frac then f + 1
  else if f % 2 = 0 then f else f + 1

/-- Python `round(q, 2)`. -/
def round2 (q : ℚ) : ℚ := (roundHalfEven (q * 100) : ℚ) / 100

/-- Python `round(q, 1)`. -/
def round1 (q : ℚ) : ℚ := (roundHalfEven (q * 10) : ℚ) / 10

/- ## Variant A: streamlit_battery_app.py -/

/-- The `cell_types` enumeration of streamlit_battery_app.py. -/
inductive CellType
  | lfp
  | mnc
  | nca
  | lto
  | lco
deriving DecidableEq, Repr

/-- The random samples consumed by one `calculate_cell_params` call:
`random.uniform(25, 40)`, `random.randint(20, 100)`, `random.randint(85, 100)`,
`random.randint(0, 500)`, in source order. -/
structure Rand where
  temp : ℚ
  soc : ℤ
  health : ℤ
  cycles : ℤ
deriving DecidableEq, Repr

/-- Ranges the `random` module guarantees for the samples of `Rand`. -/
def Rand.Valid (r : Rand) : Prop :=
  25 ≤ r.temp ∧ r.temp ≤ 40 ∧ 20 ≤ r.soc ∧ r.soc ≤ 100 ∧
    85 ≤ r.health ∧ r.health ≤ 100 ∧ 0 ≤ r.cycles ∧ r.cycles ≤ 500

/-- The dict returned by `calculate_cell_params`. -/
structure CellParams where
  voltage : ℚ
  current : ℚ
  temp : ℚ
  capacity : ℚ
  max_voltage : ℚ
  min_voltage : ℚ
  soc : ℤ
  health : ℤ
  cycles : ℤ
  cell_type : CellType
deriving DecidableEq, Repr

/-- streamlit_battery_app.py, `calculate_cell_params(cell_type, current)`. -/
def calculate_cell_params (cell_type : CellType) (current : ℚ) (r : Rand) :
    CellParams :=
  let voltage : ℚ := if cell_type = CellType.lfp then 3.2 else 3.6
  let max_vol : ℚ := if cell_type = CellType.mnc then 3.4 else 4.0
  let min_vol : ℚ := if cell_type = CellType.lfp then 2.8 else 3.2
  let temp : ℚ := round1 r.temp
  let capacity : ℚ := round2 (voltage * current)
  { voltage := voltage
    current := current
    temp := temp
    capacity := capacity
    max_voltage := max_vol
    min_voltage := min_vol
    soc := r.soc
    health := r.health
    cycles := r.cycles
    cell_type := cell_type }

/-- The key string `cell_{cell_count}_{selected_type}`, by components. -/
structure AKey where
  n : ℕ
  t : CellType
deriving DecidableEq, Repr

/-- The `cell_status` values. -/
inductive Status
  | idle
  | charging
  | discharging
deriving DecidableEq, Repr

/-- The one failure the add-cell form can hit: the registry already holds
8 cells, so the guarded add is rejected. -/
inductive CellError
  | capacityExceeded
deriving DecidableEq, Repr

/-- The session state of streamlit_battery_app.py. -/
structure AppState where
  cells_data : List (AKey × CellParams)
  cell_status : List (AKey × Status)
  charging_history : List (AKey × List ℤ)
deriving DecidableEq, Repr

/-- The empty session state the app starts from. -/
def emptyA : AppState := ⟨[], [], []⟩

/-- The add-cell form submit of streamlit_battery_app.py (lines 119-130):
guarded by `len(st.session_state.cells_data) < 8`; on success it stores the
new cell under `cell_{len+1}_{type}` with status idle and empty history. -/
def addCellSubmit (selected_type : CellType) (current_input : ℚ) (r : Rand)
    (s : AppState) : Except CellError AppState :=
  if s.cells_data.length < 8 then
    let cell_count := s.cells_data.length + 1
    let cell_key : AKey := ⟨cell_count, selected_type⟩
    Except.ok
      { cells_data :=
          dictInsert cell_key (calculate_cell_params selected_type current_input r)
            s.cells_data
        cell_status := dictInsert cell_key Status.idle s.cell_status
        charging_history := dictInsert cell_key [] s.charging_history }
  else Except.error CellError.capacityExceeded

/-- The `🗑️ Clear All Cells` button. -/
def clearAllCells (_s : AppState) : AppState := ⟨[], [], []⟩

/-- The soc update of the charge button: `if soc < 100:
soc = min(100, soc + random.randint(5, 15))`, with `d` the sampled step. -/
def chargeStep (d : ℤ) (p : CellParams) : CellParams :=
  if p.soc < 100 then { p with soc := min 100 (p.soc + d) } else p

/-- The soc update of the discharge button: `if soc > 0:
soc = max(0, soc - random.randint(5, 15))`. -/
def dischargeStep (d : ℤ) (p : CellParams) : CellParams :=
  if 0 < p.soc then { p with soc := max 0 (p.soc - d) } else p

/-- The charge button (lines 339-345): set status to charging, then nudge
the cell's soc by the sampled step, clamped at 100. -/
def applyChargeStep (k : AKey) (d : ℤ) (s : AppState) : AppState :=
  { s with
    cell_status := dictInsert k Status.charging s.cell_status
    cells_data := dictModify k (chargeStep d) s.cells_data }

/-- The discharge button (lines 348-354). -/
def applyDischargeStep (k : AKey) (d : ℤ) (s : AppState) : AppState :=
  { s with
    cell_status := dictInsert k Status.discharging s.cell_status
    cells_data := dictModify k (dischargeStep d) s.cells_data }

/-- The stop button (lines 357-359): set status to idle; soc untouched. -/
def applyStop (k : AKey) (s : AppState) : AppState :=
  { s with cell_status := dictInsert k Status.idle s.cell_status }

/-- One user interaction with the variant A registry. -/
inductive AOp
  | add (t : CellType) (current : ℚ) (r : Rand)
  | charge (k : AKey) (d : ℤ)
  | discharge (k : AKey) (d : ℤ)
  | stop (k : AKey)
  | clear
deriving Repr

/-- What the random module and the form widget guarantee about the inputs of
each operation: step sizes come from `randint(5, 15)`, the current field is
bounded by the widget (0.1 to 100), and sampled cell data is in range. -/
def AOp.Valid : AOp → Prop
  | AOp.add _ c r => r.Valid ∧ 1/10 ≤ c ∧ c ≤ 100
  | AOp.charge _ d => 5 ≤ d ∧ d ≤ 15
  | AOp.discharge _ d => 5 ≤ d ∧ d ≤ 15
  | AOp.stop _ => True
  | AOp.clear => True

/-- Run one interaction; a rejected add leaves the state as it was, which is
what the guard in the source does. -/
def applyOp : AOp → AppState → AppState
  | AOp.add t c r, s =>
      match addCellSubmit t c r s with
      | Except.ok s' => s'
      | Except.error _ => s
  | AOp.charge k d, s => applyChargeStep k d s
  | AOp.discharge k d, s => applyDischargeStep k d s
  | AOp.stop k, s => applyStop k s
  | AOp.clear, s => clearAllCells s

/-- Run a sequence of interactions in order. -/
def runOps (ops : List AOp) (s : AppState) : AppState :=
  ops.foldl (fun s op => applyOp op s) s

/-- Every cell in the registry has an soc within 0..100. -/
def SocInv (s : AppState) : Prop :=
  ∀ kp ∈ s.cells_data, 0 ≤ kp.2.soc ∧ kp.2.soc ≤ 100

/- ## Variant B: battery_streamlit_app.py -/

/-- The cell types offered by the Create Cells form: `"lfp"` and `"li-ion"`. -/
inductive BCellType
  | lfp
  | liIon
deriving DecidableEq, Repr

/-- The random samples consumed by one `create_cell_data` call:
`random.uniform(0, 5)` for the current and `random.uniform(25, 40)` for the
temperature, in source order. -/
structure BRand where
  current : ℚ
  temp : ℚ
deriving DecidableEq, Repr

/-- The dict returned by `create_cell_data`. -/
structure BCell where
  voltage : ℚ
  current : ℚ
  temp : ℚ
  capacity : ℚ
  min_voltage : ℚ
  max_voltage : ℚ
deriving DecidableEq, Repr

/-- battery_streamlit_app.py, `create_cell_data(cell_type, idx)`; the `idx`
argument is accepted but unused, as in the source. -/
def create_cell_data (cell_type : BCellType) (idx : ℕ) (r : BRand) : BCell :=
  let voltage : ℚ := if cell_type = BCellType.lfp then 3.2 else 3.6
  let min_voltage : ℚ := if cell_type = BCellType.lfp then 2.8 else 3.2
  let max_voltage : ℚ := if cell_type = BCellType.lfp then 3.6 else 4.0
  let current : ℚ := round2 r.current
  let temp : ℚ := round1 r.temp
  let capacity : ℚ := round2 (voltage * current)
  let _ := idx
  { voltage := voltage
    current := current
    temp := temp
    capacity := capacity
    min_voltage := min_voltage
    max_voltage := max_voltage }

/-- The key string `cell_{idx}_{cell_type}` of variant B, by components. -/
structure BKey where
  n : ℕ
  t : BCellType
deriving DecidableEq, Repr

/-- The Refresh Data action rebuilds the type from the key:
`cell_type = "lfp" if "lfp" in cell_key else "li-ion"`.  A key string
`cell_<n>_lfp` or `cell_<n>_li-ion` contains the substring `lfp` exactly when
its type component is `lfp`, so the test is on that component. -/
def keyCellType (k : BKey) : BCellType :=
  if k.t = BCellType.lfp then BCellType.lfp else BCellType.liIon

/-- The task types offered by the task form. -/
inductive TaskType
  | CC_CV
  | IDLE
  | CC_CD
deriving DecidableEq, Repr

/-- A task dict of the task form: `task_type` plus the fields the selected
branch fills in (absent keys are `none`). -/
structure TaskData where
  task_type : TaskType
  cc_cp : Option String := none
  cv_voltage : Option ℚ := none
  current : Option ℚ := none
  capacity : Option ℚ := none
  voltage : Option ℚ := none
  time_seconds : Option ℤ := none
deriving DecidableEq, Repr

/-- The session state of battery_streamlit_app.py (task keys `task_<n>` are
modelled by their number). -/
structure BState where
  cells_data : List (BKey × BCell)
  tasks_data : List (ℕ × TaskData)
deriving DecidableEq, Repr

/-- The task form, CC_CV branch (lines 416-430). -/
def taskFormCC_CV (cc_input : String) (cv_voltage current capacity : ℚ)
    (time_seconds : ℤ) : TaskData :=
  { task_type := TaskType.CC_CV
    cc_cp := some cc_input
    cv_voltage := some cv_voltage
    current := some current
    capacity := some capacity
    time_seconds := some time_seconds }

/-- The task form, IDLE branch (lines 432-435): only `time_seconds` is added
to the `task_type` tag. -/
def taskFormIDLE (time_seconds : ℤ) : TaskData :=
  { task_type := TaskType.IDLE
    time_seconds := some time_seconds }

/-- The task form, CC_CD branch (lines 437-449). -/
def taskFormCC_CD (cc_input : String) (voltage capacity : ℚ)
    (time_seconds : ℤ) : TaskData :=
  { task_type := TaskType.CC_CD
    cc_cp := some cc_input
    voltage := some voltage
    capacity := some capacity
    time_seconds := some time_seconds }

/-- One interaction with the task list: the Add Task submit (lines 451-458),
which stores the form data under `task_{len(tasks_data)+1}`, or a Delete
button (lines 499-502). -/
inductive TaskOp
  | add (d : TaskData)
  | remove (k : ℕ)

/-- Whether the interaction is an Add Task submit. -/
def TaskOp.isAdd : TaskOp → Bool
  | TaskOp.add _ => true
  | TaskOp.remove _ => false

/-- Run one task interaction on the tasks dict. -/
def taskStep : TaskOp → List (ℕ × TaskData) → List (ℕ × TaskData)
  | TaskOp.add d, ts => dictInsert (ts.length + 1) d ts
  | TaskOp.remove k, ts => dictDelete k ts

/-- Run a sequence of task interactions in order. -/
def runTaskOps (ops : List TaskOp) (ts : List (ℕ × TaskData)) :
    List (ℕ × TaskData) :=
  ops.foldl (fun ts op => taskStep op ts) ts

/-- The ids assigned by the Add Task submits of a sequence, in creation
order: each add computes its key as `len(tasks_data) + 1` at that moment. -/
def assignedIds : List TaskOp → List (ℕ × TaskData) → List ℕ
  | [], _ => []
  | TaskOp.add d :: ops, ts =>
      (ts.length + 1) :: assignedIds ops (taskStep (TaskOp.add d) ts)
  | TaskOp.remove k :: ops, ts => assignedIds ops (taskStep (TaskOp.remove k) ts)

/-- The Create Cells submit loop (lines 364-371): starting from the cleared
dict, store `create_cell_data(cell_type, idx)` under `cell_{idx}_{cell_type}`
for `idx, cell_type in enumerate(cell_configs, start=1)`. -/
def createCellsLoop (r : ℕ → BRand) :
    ℕ → List BCellType → List (BKey × BCell) → List (BKey × BCell)
  | _, [], acc => acc
  | idx, t :: rest, acc =>
      createCellsLoop r (idx + 1) rest
        (dictInsert ⟨idx, t⟩ (create_cell_data t idx (r idx)) acc)

/-- The Create Cells form submit of battery_streamlit_app.py: clear
`cells_data`, then run the creation loop.  Tasks are untouched. -/
def cellFormSubmit (cell_configs : List BCellType) (r : ℕ → BRand)
    (s : BState) : BState :=
  { s with cells_data := createCellsLoop r 1 cell_configs [] }

/-- Specification-side description of what the form submit should leave in
the registry: exactly one freshly derived cell per form row, keyed
`cell_<idx>_<type>` with `idx` counting from 1.  Stated from the claim's
words, to be compared with `cellFormSubmit`. -/
def cellsDescribedByForm : ℕ → List BCellType → (ℕ → BRand) →
    List (BKey × BCell)
  | _, [], _ => []
  | idx, t :: rest, r =>
      ((⟨idx, t⟩ : BKey), create_cell_data t idx (r idx)) ::
        cellsDescribedByForm (idx + 1) rest r

/-- The Refresh Data action (lines 316-324): every cell is regenerated in
place by `create_cell_data` on the type and index recovered from its key. -/
def refreshData (r : BKey → BRand) (cells : List (BKey × BCell)) :
    List (BKey × BCell) :=
  cells.map (fun kc => (kc.1, create_cell_data (keyCellType kc.1) kc.1.n (r kc.1)))

/- ## Sample values used by the witness statements -/

/-- A sample of the variant A random stream: temperature 30, soc 95,
health 90, 100 cycles. -/
def rA : Rand := ⟨30, 95, 90, 100⟩

/-- A sample of the variant B random stream: current 2, temperature 30. -/
def rB : BRand := ⟨2, 30⟩

/-- A variant A state whose registry is at the maximum size of 8. -/
def s8 : AppState :=
  { cells_data :=
      List.replicate 8 (⟨1, CellType.lfp⟩, calculate_cell_params CellType.lfp 1 rA)
    cell_status := []
    charging_history := [] }

/-- A sample cell with soc 95. -/
def pW : CellParams := calculate_cell_params CellType.lfp 2 rA

/-- A variant A state holding the single cell `pW`. -/
def sW : AppState :=
  { cells_data := [(⟨1, CellType.lfp⟩, pW)]
    cell_status := [(⟨1, CellType.lfp⟩, Status.idle)]
    charging_history := [(⟨1, CellType.lfp⟩, [])] }

/-- A sample interaction sequence: add a cell, charge it, discharge it,
stop it. -/
def opsW : List AOp :=
  [AOp.add CellType.lfp 1 rA, AOp.charge ⟨1, CellType.lfp⟩ 7,
    AOp.discharge ⟨1, CellType.lfp⟩ 9, AOp.stop ⟨1, CellType.lfp⟩]

/-- The task interaction sequence add, delete `task_1`, add again. -/
def opsCE : List TaskOp :=
  [TaskOp.add (taskFormIDLE 1800), TaskOp.remove 1,
    TaskOp.add (taskFormIDLE 1800)]

/- ## Helper lemmas on the dictionary operations -/

theorem mem_dictInsert [DecidableEq κ] {k : κ} {v : α} {l : List (κ × α)}
    {x : κ × α} (hx : x ∈ dictInsert k v l) : x = (k, v) ∨ x ∈ l := by
  induction l with
  | nil => exact Or.inl (List.mem_singleton.mp hx)
  | cons hd tl ih =>
      obtain ⟨k', v'⟩ := hd
      by_cases h : k' = k
      · rw [show dictInsert k v ((k', v') :: tl) = (k, v) :: tl by
            simp [dictInsert, h]] at hx
        rcases List.mem_cons.mp hx with h1 | h1
        · exact Or.inl h1
        · exact Or.inr (List.mem_cons_of_mem _ h1)
      · rw [show dictInsert k v ((k', v') :: tl) = (k', v') :: dictInsert k v tl by
            simp [dictInsert, h]] at hx
        rcases List.mem_cons.mp hx with h1 | h1
        · exact Or.inr (h1 ▸ List.mem_cons_self _ _)
        · rcases ih h1 with h2 | h2
          · exact Or.inl h2
          · exact Or.inr (List.mem_cons_of_mem _ h2)

theorem dictInsert_length_le [DecidableEq κ] (k : κ) (v : α)
    (l : List (κ × α)) : (dictInsert k v l).length ≤ l.length + 1 := by
  induction l with
  | nil => simp [dictInsert]
  | cons hd tl ih =>
      obtain ⟨k', v'⟩ := hd
      by_cases h : k' = k
      · simp [dictInsert, h]
      · simp only [dictInsert, if_neg h, List.length_cons]
        omega

theorem dictInsert_of_not_mem [DecidableEq κ] {k : κ} (v : α)
    {l : List (κ × α)} (h : k ∉ l.map Prod.fst) :
    dictInsert k v l = l ++ [(k, v)] := by
  induction l with
  | nil => rfl
  | cons hd tl ih =>
      obtain ⟨k', v'⟩ := hd
      have hne : ¬ (k' = k) := by
        intro hh
        exact h (by simp [hh])
      have htl : k ∉ tl.map Prod.fst := by
        intro hh
        exact h (by simp [hh])
      simp [dictInsert, hne, ih htl]

theorem mem_dictModify [DecidableEq κ] {k : κ} {f : α → α} {l : List (κ × α)}
    {x : κ × α} (hx : x ∈ dictModify k f l) :
    x ∈ l ∨ ∃ y ∈ l, x = (y.1, f y.2) := by
  induction l with
  | nil => exact absurd hx (List.not_mem_nil _)
  | cons hd tl ih =>
      obtain ⟨k', v'⟩ := hd
      by_cases h : k' = k
      · rw [show dictModify k f ((k', v') :: tl) = (k', f v') :: tl by
            simp [dictModify, h]] at hx
        rcases List.mem_cons.mp hx with h1 | h1
        · exact Or.inr ⟨(k', v'), List.mem_cons_self _ _, h1⟩
        · exact Or.inl (List.mem_cons_of_mem _ h1)
      · rw [show dictModify k f ((k', v') :: tl) = (k', v') :: dictModify k f tl by
            simp [dictModify, h]] at hx
        rcases List.mem_cons.mp hx with h1 | h1
        · exact Or.inl (h1 ▸ List.mem_cons_self _ _)
        · rcases ih h1 with h2 | ⟨y, hy, h2⟩
          · exact Or.inl (List.mem_cons_of_mem _ h2)
          · exact Or.inr ⟨y, List.mem_cons_of_mem _ hy, h2⟩

theorem dictModify_length [DecidableEq κ] (k : κ) (f : α → α)
    (l : List (κ × α)) : (dictModify k f l).length = l.length := by
  induction l with
  | nil => rfl
  | cons hd tl ih =>
      obtain ⟨k', v'⟩ := hd
      by_cases h : k' = k
      · simp [dictModify, h]
      · simp [dictModify, h, ih]

theorem dictGet_dictInsert_self [DecidableEq κ] (k : κ) (v : α)
    (l : List (κ × α)) : dictGet k (dictInsert k v l) = some v := by
  induction l with
  | nil => simp [dictInsert, dictGet]
  | cons hd tl ih =>
      obtain ⟨k', v'⟩ := hd
      by_cases h : k' = k
      · simp [dictInsert, dictGet, h]
      · simp [dictInsert, dictGet, h, ih]

theorem dictGet_dictModify_self [DecidableEq κ] {k : κ} {f : α → α}
    {l : List (κ × α)} {p : α} (h : dictGet k l = some p) :
    dictGet k (dictModify k f l) = some (f p) := by
  induction l with
  | nil => simp [dictGet] at h
  | cons hd tl ih =>
      obtain ⟨k', v'⟩ := hd
      by_cases hk : k' = k
      · simp only [dictGet, if_pos hk, Option.some_inj] at h
        simp [dictModify, dictGet, hk, h]
      · simp only [dictGet, if_neg hk] at h
        simp [dictModify, dictGet, hk, ih h]

/- ## Helper lemmas: soc bounds (variant A) -/

theorem chargeStep_soc_bounds {d : ℤ} (hd : 0 ≤ d) {p : CellParams}
    (h0 : 0 ≤ p.soc) (h1 : p.soc ≤ 100) :
    0 ≤ (chargeStep d p).soc ∧ (chargeStep d p).soc ≤ 100 := by
  unfold chargeStep
  split
  · constructor
    · exact le_min (by norm_num) (by omega)
    · exact min_le_left _ _
  · exact ⟨h0, h1⟩

theorem dischargeStep_soc_bounds {d : ℤ} (hd : 0 ≤ d) {p : CellParams}
    (h0 : 0 ≤ p.soc) (h1 : p.soc ≤ 100) :
    0 ≤ (dischargeStep d p).soc ∧ (dischargeStep d p).soc ≤ 100 := by
  unfold dischargeStep
  split
  · exact ⟨le_max_left _ _, max_le (by norm_num) (by omega)⟩
  · exact ⟨h0, h1⟩

theorem socInv_addCellSubmit {t : CellType} {c : ℚ} {r : Rand}
    {s s' : AppState} (hr : r.Valid) (hs : SocInv s)
    (h : addCellSubmit t c r s = Except.ok s') : SocInv s' := by
  unfold addCellSubmit at h
  split at h
  · injection h with h2
    subst h2
    intro kp hkp
    rcases mem_dictInsert hkp with hk | hk
    · subst hk
      show 0 ≤ r.soc ∧ r.soc ≤ 100
      obtain ⟨-, -, h1, h2, -⟩ := hr
      exact ⟨by omega, by omega⟩
    · exact hs kp hk
  · exact absurd h (by simp)

theorem socInv_applyOp {op : AOp} (hop : op.Valid) {s : AppState}
    (hs : SocInv s) : SocInv (applyOp op s) := by
  cases op with
  | add t c r =>
      simp only [applyOp]
      cases h : addCellSubmit t c r s with
      | ok s' => exact socInv_addCellSubmit hop.1 hs h
      | error e => exact hs
  | charge k d =>
      obtain ⟨h5, h15⟩ := hop
      intro kp hkp
      rcases mem_dictModify hkp with h | ⟨y, hy, h2⟩
      · exact hs kp h
      · subst h2
        have hy' := hs y hy
        exact chargeStep_soc_bounds (by omega) hy'.1 hy'.2
  | discharge k d =>
      obtain ⟨h5, h15⟩ := hop
      intro kp hkp
      rcases mem_dictModify hkp with h | ⟨y, hy, h2⟩
      · exact hs kp h
      · subst h2
        have hy' := hs y hy
        exact dischargeStep_soc_bounds (by omega) hy'.1 hy'.2
  | stop k => exact fun kp hkp => hs kp hkp
  | clear => exact fun kp hkp => absurd hkp (List.not_mem_nil _)

theorem socInv_runOps {ops : List AOp} (hops : ∀ op ∈ ops, op.Valid)
    {s : AppState} (hs : SocInv s) : SocInv (runOps ops s) := by
  induction ops generalizing s with
  | nil => exact hs
  | cons op rest ih =>
      exact ih (fun o ho => hops o (List.mem_cons_of_mem _ ho))
        (socInv_applyOp (hops op (List.mem_cons_self _ _)) hs)

/- ## Helper lemmas: registry size (variant A) -/

theorem length_applyOp_le {op : AOp} {s : AppState}
    (h : s.cells_data.length ≤ 8) : (applyOp op s).cells_data.length ≤ 8 := by
  cases op with
  | add t c r =>
      simp only [applyOp]
      cases haddv : addCellSubmit t c r s with
      | ok s' =>
          unfold addCellSubmit at haddv
          split at haddv
          · rename_i hlt
            injection haddv with h2
            subst h2
            have h3 := dictInsert_length_le
              (⟨s.cells_data.length + 1, t⟩ : AKey)
              (calculate_cell_params t c r) s.cells_data
            exact le_trans h3 (by omega)
          · exact absurd haddv (by simp)
      | error e => exact h
  | charge k d =>
      show (dictModify k (chargeStep d) s.cells_data).length ≤ 8
      rw [dictModify_length]
      exact h
  | discharge k d =>
      show (dictModify k (dischargeStep d) s.cells_data).length ≤ 8
      rw [dictModify_length]
      exact h
  | stop k => exact h
  | clear => simp [applyOp, clearAllCells]

theorem length_runOps_le {ops : List AOp} {s : AppState}
    (h : s.cells_data.length ≤ 8) : (runOps ops s).cells_data.length ≤ 8 := by
  induction ops generalizing s with
  | nil => exact h
  | cons op rest ih => exact ih (length_applyOp_le h)

/- ## Helper lemmas: task ids (variant B) -/

theorem range'_one_concat (n : ℕ) :
    List.range' 1 n ++ [n + 1] = List.range' 1 (n + 1) := by
  have hc := @List.range'_concat 1 1 n
  simp only [one_mul] at hc
  rw [Nat.add_comm 1 n] at hc
  exact hc.symm

theorem keys_taskStep_add {ts : List (ℕ × TaskData)}
    (hts : ts.map Prod.fst = List.range' 1 ts.length) (d : TaskData) :
    (taskStep (TaskOp.add d) ts).map Prod.fst =
        List.range' 1 (ts.length + 1) ∧
      (taskStep (TaskOp.add d) ts).length = ts.length + 1 := by
  have hfresh : (ts.length + 1) ∉ ts.map Prod.fst := by
    rw [hts]
    intro hmem
    have := List.mem_range'_1.mp hmem
    omega
  have happ := dictInsert_of_not_mem d hfresh
  constructor
  · show (dictInsert (ts.length + 1) d ts).map Prod.fst = _
    rw [happ, List.map_append, hts]
    exact range'_one_concat ts.length
  · show (dictInsert (ts.length + 1) d ts).length = _
    rw [happ]
    simp

theorem assignedIds_all_adds {ops : List TaskOp}
    (h : ∀ op ∈ ops, op.isAdd = true) {ts : List (ℕ × TaskData)}
    (hts : ts.map Prod.fst = List.range' 1 ts.length) :
    assignedIds ops ts = List.range' (ts.length + 1) ops.length := by
  induction ops generalizing ts with
  | nil => rfl
  | cons op rest ih =>
      cases op with
      | add d =>
          have hk := keys_taskStep_add hts d
          have hrest : ∀ o ∈ rest, o.isAdd = true :=
            fun o ho => h o (List.mem_cons_of_mem _ ho)
          have hts' : (taskStep (TaskOp.add d) ts).map Prod.fst =
              List.range' 1 (taskStep (TaskOp.add d) ts).length := by
            rw [hk.2, hk.1]
          have hrec := ih hrest hts'
          show (ts.length + 1) :: assignedIds rest (taskStep (TaskOp.add d) ts) =
            List.range' (ts.length + 1) (rest.length + 1)
          rw [hrec, hk.2]
          rfl
      | remove k =>
          have := h _ (List.mem_cons_self _ _)
          simp [TaskOp.isAdd] at this

/- ## Helper lemma: the Create Cells loop builds exactly the form's cells -/

theorem createCellsLoop_eq (r : ℕ → BRand) (cfgs : List BCellType) :
    ∀ (idx : ℕ) (acc : List (BKey × BCell)),
      (∀ k ∈ acc.map Prod.fst, k.n < idx) →
      createCellsLoop r idx cfgs acc = acc ++ cellsDescribedByForm idx cfgs r := by
  induction cfgs with
  | nil =>
      intro idx acc hacc
      simp [createCellsLoop, cellsDescribedByForm]
  | cons t rest ih =>
      intro idx acc hacc
      have hfresh : (⟨idx, t⟩ : BKey) ∉ acc.map Prod.fst := by
        intro hmem
        exact absurd (hacc _ hmem) (by simp)
      have hacc' : ∀ k ∈ (acc ++ [((⟨idx, t⟩ : BKey), create_cell_data t idx (r idx))]).map
          Prod.fst, k.n < idx + 1 := by
        intro k hk
        simp only [List.map_append, List.mem_append, List.map_cons, List.map_nil,
          List.mem_singleton] at hk
        rcases hk with hk | hk
        · exact Nat.lt_succ_of_lt (hacc k hk)
        · subst hk
          exact Nat.lt_succ_self idx
      calc createCellsLoop r idx (t :: rest) acc
          = createCellsLoop r (idx + 1) rest
              (acc ++ [((⟨idx, t⟩ : BKey), create_cell_data t idx (r idx))]) := by
            show createCellsLoop r (idx + 1) rest
                (dictInsert ⟨idx, t⟩ (create_cell_data t idx (r idx)) acc) = _
            rw [dictInsert_of_not_mem _ hfresh]
        _ = (acc ++ [((⟨idx, t⟩ : BKey), create_cell_data t idx (r idx))]) ++
              cellsDescribedByForm (idx + 1) rest r := ih (idx + 1) _ hacc'
        _ = acc ++ cellsDescribedByForm idx (t :: rest) r := by
            rw [List.append_assoc]
            rfl

/- ## The claims -/

/-- C1: the claim says every supported chemistry yields
minVoltage < nominalVoltage ≤ maxVoltage.  Evaluating the code's bound
tables: the invariant holds for lfp, nca, lto and lco of variant A and for
both types of variant B, but for the supported chemistry mnc variant A
returns nominalVoltage 3.6 with maxVoltage 3.4, so nominalVoltage ≤
maxVoltage fails — the very inconsistency §9 of the spec flags as a latent
code bug. -/
theorem C1_bounds_mnc_violation :
    ((calculate_cell_params CellType.lfp 1 rA).min_voltage <
        (calculate_cell_params CellType.lfp 1 rA).voltage ∧
      (calculate_cell_params CellType.lfp 1 rA).voltage ≤
        (calculate_cell_params CellType.lfp 1 rA).max_voltage) ∧
    ((calculate_cell_params CellType.nca 1 rA).min_voltage <
        (calculate_cell_params CellType.nca 1 rA).voltage ∧
      (calculate_cell_params CellType.nca 1 rA).voltage ≤
        (calculate_cell_params CellType.nca 1 rA).max_voltage) ∧
    ((calculate_cell_params CellType.lto 1 rA).min_voltage <
        (calculate_cell_params CellType.lto 1 rA).voltage ∧
      (calculate_cell_params CellType.lto 1 rA).voltage ≤
        (calculate_cell_params CellType.lto 1 rA).max_voltage) ∧
    ((calculate_cell_params CellType.lco 1 rA).min_voltage <
        (calculate_cell_params CellType.lco 1 rA).voltage ∧
      (calculate_cell_params CellType.lco 1 rA).voltage ≤
        (calculate_cell_params CellType.lco 1 rA).max_voltage) ∧
    ((create_cell_data BCellType.lfp 1 rB).min_voltage <
        (create_cell_data BCellType.lfp 1 rB).voltage ∧
      (create_cell_data BCellType.lfp 1 rB).voltage ≤
        (create_cell_data BCellType.lfp 1 rB).max_voltage) ∧
    ((create_cell_data BCellType.liIon 1 rB).min_voltage <
        (create_cell_data BCellType.liIon 1 rB).voltage ∧
      (create_cell_data BCellType.liIon 1 rB).voltage ≤
        (create_cell_data BCellType.liIon 1 rB).max_voltage) ∧
    ((calculate_cell_params CellType.mnc 1 rA).min_voltage <
        (calculate_cell_params CellType.mnc 1 rA).voltage ∧
      ¬ (calculate_cell_params CellType.mnc 1 rA).voltage ≤
        (calculate_cell_params CellType.mnc 1 rA).max_voltage) := by
  simp only [calculate_cell_params, create_cell_data, reduceCtorEq, reduceIte,
    if_true, if_false]
  norm_num

/-- C2: immediately after a cell is created (either variant) and immediately
after the Refresh Data action regenerates it, its capacity field equals
round(nominalVoltage * current, 2) of its own voltage and current fields. -/
theorem C2_capacity_recomputed :
    (∀ (t : CellType) (c : ℚ) (r : Rand),
        (calculate_cell_params t c r).capacity =
          round2 ((calculate_cell_params t c r).voltage *
            (calculate_cell_params t c r).current)) ∧
    (∀ (t : BCellType) (i : ℕ) (r : BRand),
        (create_cell_data t i r).capacity =
          round2 ((create_cell_data t i r).voltage *
            (create_cell_data t i r).current)) ∧
    (∀ (r : BKey → BRand) (cells : List (BKey × BCell)) (kc : BKey × BCell),
        kc ∈ refreshData r cells →
          kc.2.capacity = round2 (kc.2.voltage * kc.2.current)) := by
  refine ⟨fun t c r => rfl, fun t i r => rfl, fun r cells kc hkc => ?_⟩
  rcases List.mem_map.mp hkc with ⟨y, hy, rfl⟩
  rfl

/-- Witness for C2 at chemistry lfp, current 2, and a refreshed singleton
registry. -/
theorem C2_capacity_recomputed_witness :
    (calculate_cell_params CellType.lfp 2 rA).capacity =
        round2 ((calculate_cell_params CellType.lfp 2 rA).voltage *
          (calculate_cell_params CellType.lfp 2 rA).current) ∧
      ((⟨1, BCellType.lfp⟩ : BKey),
          create_cell_data (keyCellType ⟨1, BCellType.lfp⟩) 1 rB).2.capacity =
        round2 (((⟨1, BCellType.lfp⟩ : BKey),
            create_cell_data (keyCellType ⟨1, BCellType.lfp⟩) 1 rB).2.voltage *
          ((⟨1, BCellType.lfp⟩ : BKey),
            create_cell_data (keyCellType ⟨1, BCellType.lfp⟩) 1 rB).2.current) :=
  ⟨C2_capacity_recomputed.1 CellType.lfp 2 rA,
    C2_capacity_recomputed.2.2 (fun _ => rB)
      [(⟨1, BCellType.lfp⟩, create_cell_data BCellType.lfp 1 rB)] _
      (by simp [refreshData])⟩

/-- C3: the add-cell form is guarded by the registry size 8: an add on a
full registry is rejected with the capacity error, and no interaction
sequence can push the registry beyond 8 cells. -/
theorem C3_registry_cap (t : CellType) (c : ℚ) (r : Rand) (s : AppState)
    (h8 : 8 ≤ s.cells_data.length) (ops : List AOp) (s0 : AppState)
    (h0 : s0.cells_data.length ≤ 8) :
    addCellSubmit t c r s = Except.error CellError.capacityExceeded ∧
    (runOps ops s0).cells_data.length ≤ 8 := by
  constructor
  · unfold addCellSubmit
    rw [if_neg (by omega)]
  · exact length_runOps_le h0

/-- Witness for C3 at a full 8-cell registry and a one-add run from the
empty state. -/
theorem C3_registry_cap_witness :
    addCellSubmit CellType.lfp 1 rA s8 =
        Except.error CellError.capacityExceeded ∧
      (runOps [AOp.add CellType.lfp 1 rA] emptyA).cells_data.length ≤ 8 :=
  C3_registry_cap CellType.lfp 1 rA s8 (by simp [s8])
    [AOp.add CellType.lfp 1 rA] emptyA (by simp [emptyA])

/-- C4 counterexample: the add-task submit computes its key as
`task_{len(tasks_data)+1}`, so after add, delete `task_1`, add, the second
add is assigned id 1 again — ids are neither strictly increasing nor free
of reuse after an intervening deletion, refuting the claim as stated. -/
theorem C4_task_id_reuse_counterexample :
    assignedIds opsCE [] = [1, 1] ∧
    ¬ List.Pairwise (fun a b => a < b) (assignedIds opsCE []) ∧
    ¬ (assignedIds opsCE []).Nodup := by
  have h : assignedIds opsCE [] = [1, 1] := rfl
  refine ⟨h, ?_, ?_⟩
  · rw [h]
    decide
  · rw [h]
    decide

/-- C4 (amended): in any deletion-free interaction sequence started from an
empty task list, the assigned task ids are exactly 1, 2, ..., n in creation
order — strictly increasing and never reused.  An intervening deletion can
make a later add reuse an earlier id (see the counterexample). -/
theorem C4_task_ids_amended (ops : List TaskOp)
    (h : ∀ op ∈ ops, op.isAdd = true) :
    assignedIds ops [] = List.range' 1 ops.length ∧
    List.Pairwise (fun a b => a < b) (assignedIds ops []) ∧
    (assignedIds ops []).Nodup := by
  have h0 : (([] : List (ℕ × TaskData)).map Prod.fst) = List.range' 1 0 := rfl
  have hmain := assignedIds_all_adds h h0
  refine ⟨hmain, ?_, ?_⟩
  · rw [hmain]
    exact List.pairwise_lt_range' _ _
  · rw [hmain]
    exact (List.pairwise_lt_range' _ _).imp fun hab => Nat.ne_of_lt hab

/-- Witness for the amended C4 on two consecutive adds. -/
theorem C4_task_ids_amended_witness :
    assignedIds [TaskOp.add (taskFormIDLE 1800), TaskOp.add (taskFormIDLE 1800)]
        [] = List.range' 1 2 ∧
      List.Pairwise (fun a b => a < b)
        (assignedIds [TaskOp.add (taskFormIDLE 1800),
          TaskOp.add (taskFormIDLE 1800)] []) ∧
      (assignedIds [TaskOp.add (taskFormIDLE 1800),
          TaskOp.add (taskFormIDLE 1800)] []).Nodup :=
  C4_task_ids_amended
    [TaskOp.add (taskFormIDLE 1800), TaskOp.add (taskFormIDLE 1800)]
    (by decide)

/-- C5: over any valid interaction sequence the soc of every registered cell
stays an integer in [0, 100] — the charge button never pushes it above 100,
the discharge button never below 0 — and the stop button leaves the cell
data (hence every soc) unchanged. -/
theorem C5_soc_bounds (ops : List AOp) (hops : ∀ op ∈ ops, op.Valid)
    (s : AppState) (hs : SocInv s) :
    SocInv (runOps ops s) ∧
    ∀ k, (applyStop k s).cells_data = s.cells_data :=
  ⟨socInv_runOps hops hs, fun _ => rfl⟩

/-- Witness for C5 on an add-charge-discharge-stop run from the empty
state. -/
theorem C5_soc_bounds_witness :
    SocInv (runOps opsW emptyA) ∧
      ∀ k, (applyStop k emptyA).cells_data = emptyA.cells_data :=
  C5_soc_bounds opsW
    (by
      intro op hop
      simp only [opsW, List.mem_cons, List.not_mem_nil, or_false] at hop
      rcases hop with rfl | rfl | rfl | rfl
      · exact ⟨by norm_num [Rand.Valid, rA], by norm_num, by norm_num⟩
      · exact ⟨by norm_num, by norm_num⟩
      · exact ⟨by norm_num, by norm_num⟩
      · trivial)
    emptyA
    (fun kp hkp => absurd hkp (List.not_mem_nil _))

/-- C6: the charge button sets the cell's status to charging and replaces
its soc by min(100, soc + d) for the sampled d in [5, 15] when soc < 100
(a strict increase), leaves soc unchanged when soc = 100, and from soc = 95
one step always lands exactly on 100. -/
theorem C6_charge_behavior (s : AppState) (k : AKey) (p : CellParams)
    (d : ℤ) (hp : dictGet k s.cells_data = some p) (h5 : 5 ≤ d)
    (h15 : d ≤ 15) :
    dictGet k (applyChargeStep k d s).cell_status = some Status.charging ∧
    dictGet k (applyChargeStep k d s).cells_data = some (chargeStep d p) ∧
    (p.soc < 100 →
      (chargeStep d p).soc = min 100 (p.soc + d) ∧
        p.soc < (chargeStep d p).soc) ∧
    (p.soc = 100 → (chargeStep d p).soc = p.soc) ∧
    (p.soc = 95 → (chargeStep d p).soc = 100) := by
  refine ⟨dictGet_dictInsert_self _ _ _, dictGet_dictModify_self hp, ?_, ?_, ?_⟩
  · intro h100
    unfold chargeStep
    rw [if_pos h100]
    refine ⟨rfl, ?_⟩
    show p.soc < min 100 (p.soc + d)
    omega
  · intro h100
    unfold chargeStep
    rw [if_neg (by omega)]
  · intro h95
    unfold chargeStep
    rw [if_pos (by omega)]
    show min 100 (p.soc + d) = 100
    omega

/-- Witness for C6 on the single-cell state `sW` (its cell has soc 95) with
sampled step 7. -/
theorem C6_charge_behavior_witness :
    dictGet ⟨1, CellType.lfp⟩
        (applyChargeStep ⟨1, CellType.lfp⟩ 7 sW).cell_status =
      some Status.charging ∧
    dictGet ⟨1, CellType.lfp⟩
        (applyChargeStep ⟨1, CellType.lfp⟩ 7 sW).cells_data =
      some (chargeStep 7 pW) ∧
    (pW.soc < 100 →
      (chargeStep 7 pW).soc = min 100 (pW.soc + 7) ∧
        pW.soc < (chargeStep 7 pW).soc) ∧
    (pW.soc = 100 → (chargeStep 7 pW).soc = pW.soc) ∧
    (pW.soc = 95 → (chargeStep 7 pW).soc = 100) :=
  C6_charge_behavior sW ⟨1, CellType.lfp⟩ pW 7 rfl (by norm_num) (by norm_num)

/-- C7: a rejected add-cell submit (the only failing operation of the
variant A engine) is a no-op: the registry, status map and history are all
left exactly as they were. -/
theorem C7_failed_add_noop (t : CellType) (c : ℚ) (r : Rand) (s : AppState)
    (e : CellError) (h : addCellSubmit t c r s = Except.error e) :
    applyOp (AOp.add t c r) s = s := by
  simp only [applyOp]
  rw [h]

/-- Witness for C7: the add rejected on the full registry `s8` changes
nothing. -/
theorem C7_failed_add_noop_witness :
    applyOp (AOp.add CellType.lfp 1 rA) s8 = s8 :=
  C7_failed_add_noop CellType.lfp 1 rA s8 CellError.capacityExceeded
    (by
      unfold addCellSubmit
      rw [if_neg (by simp [s8])])

/-- C8: a task built by the IDLE branch of the task form carries, beyond
its task_type tag, only the time_seconds field: the setpoint, voltages,
current and capacity fields are all absent. -/
theorem C8_idle_task_fields (t : ℤ) :
    (taskFormIDLE t).task_type = TaskType.IDLE ∧
    (taskFormIDLE t).time_seconds = some t ∧
    (taskFormIDLE t).cc_cp = none ∧
    (taskFormIDLE t).cv_voltage = none ∧
    (taskFormIDLE t).current = none ∧
    (taskFormIDLE t).capacity = none ∧
    (taskFormIDLE t).voltage = none :=
  ⟨rfl, rfl, rfl, rfl, rfl, rfl, rfl⟩

/-- C9: submitting the Create Cells form replaces the whole registry: the
result is the same whatever the previous registry was, and holds exactly
one freshly derived cell per form row (keys cell_1, cell_2, ... in form
order); the task list is untouched. -/
theorem C9_form_replaces_registry (cell_configs : List BCellType)
    (r : ℕ → BRand) (s s' : BState) :
    (cellFormSubmit cell_configs r s).cells_data =
      (cellFormSubmit cell_configs r s').cells_data ∧
    (cellFormSubmit cell_configs r s).cells_data =
      cellsDescribedByForm 1 cell_configs r ∧
    (cellFormSubmit cell_configs r s).tasks_data = s.tasks_data := by
  have h := createCellsLoop_eq r cell_configs 1 []
    (by intro k hk; simp at hk)
  exact ⟨rfl, by simpa using h, rfl⟩

/-- C10: the voltage, min/max voltage and capacity of a created cell are a
function of chemistry and supplied current alone: two calls with the same
chemistry and current agree on those four fields whatever random samples
they draw. -/
theorem C10_fields_deterministic (t : CellType) (c : ℚ) (r1 r2 : Rand) :
    (calculate_cell_params t c r1).voltage =
      (calculate_cell_params t c r2).voltage ∧
    (calculate_cell_params t c r1).min_voltage =
      (calculate_cell_params t c r2).min_voltage ∧
    (calculate_cell_params t c r1).max_voltage =
      (calculate_cell_params t c r2).max_voltage ∧
    (calculate_cell_params t c r1).capacity =
      (calculate_cell_params t c r2).capacity :=
  ⟨rfl, rfl, rfl, rfl⟩

end Battery
